import Mathlib

/-!  Verification of the bokeh charts builder layer
(`bokeh/charts/_builder.py`, `bokeh/charts/builder/line_builder.py`,
`bokeh/charts/builder/step_builder.py`) as a shallow embedding.

Numeric values are embedded as rationals (`ℚ`); Python dicts as ordered
association lists with in-place overwrite on key collision (Python dict
semantics); the lazy `draw` generators as eagerly computed lists paired with
the updated builder state (the orchestration consumes them eagerly and in
full).  External collaborators that are not under version control here
(`DataAdapter`, `Chart`, `ColumnDataSource`, glyph and range model objects,
`utils.cycle_colors`, `utils.chunk`) are modelled from the specification's
collaborator contracts; everything else is translated from the source.  -/

/-- The default color palette, `DEFAULT_PALETTE` in `_builder.py`. -/
def DEFAULT_PALETTE : List String :=
  ["#f22c40", "#5ab738", "#407ee7", "#df5320", "#00ad9c", "#c33ff3"]

/-- Modelled from the spec: `bokeh.charts.utils.cycle_colors` (not under
`src/`) assigns a deterministically cycled color from the default palette to
each element of its argument, yielding one color per element. -/
def cycle_colors {α : Type} (l : List α) : List String :=
  (List.range l.length).map (fun i => DEFAULT_PALETTE.getD (i % DEFAULT_PALETTE.length) "")

/-- Fuel-based worker for `chunk` (the fuel only forces structural
termination; it is always at least the list length, which suffices because
each step consumes at least the head). -/
def chunkAux {α : Type} (n : Nat) : Nat → List α → List (List α)
  | _, [] => []
  | 0, _ :: _ => []
  | fuel + 1, x :: xs => (x :: xs.take (n - 1)) :: chunkAux n fuel (xs.drop (n - 1))

/-- Modelled from the spec: `bokeh.charts.utils.chunk` (not under `src/`)
groups a list into consecutive chunks of size `n`; `StepBuilder.draw` uses it
to pair the y1/y2 attribute names two at a time. -/
def chunk {α : Type} (n : Nat) (l : List α) : List (List α) :=
  chunkAux n l.length l

/-- Python dict update `d[k] = v`: overwrites in place when the key exists
(keeping its position), otherwise appends a new entry. -/
def dictInsert {α : Type} (d : List (String × α)) (k : String) (v : α) :
    List (String × α) :=
  if d.any (fun p => p.1 == k) then
    d.map (fun p => if p.1 == k then (k, v) else p)
  else
    d ++ [(k, v)]

/-- Python dict lookup `d[k]` (first matching key, `none` = `KeyError`). -/
def dictGet {α : Type} (d : List (String × α)) (k : String) : Option α :=
  (d.find? (fun p => p.1 == k)).map Prod.snd

/-- Modelled from the spec: by-key column access of a `DataAdapter` column.
An adapted series is stored as an association list from index key to value;
`self._values[col][x]` looks up the value at index key `x` (0 on a miss,
which the pipeline never exercises for well-formed input). -/
def keyLookup (assoc : List (ℚ × ℚ)) (x : ℚ) : ℚ :=
  ((assoc.find? (fun p => p.1 == x)).map Prod.snd).getD 0

/-- The builder's `index` configuration: a column-name string, an explicit
index sequence, or absent (`None`). -/
inductive IndexSpec : Type
  | noneSpec : IndexSpec
  | col : String → IndexSpec
  | seq : List ℚ → IndexSpec
deriving DecidableEq

/-- `isinstance(self.index, string_types) and col == self.index`, the skip
test of the `get_data` loops. -/
def indexMatches : IndexSpec → String → Bool
  | .col s, name => name == s
  | _, _ => false

/-- The builder's `_values` attribute: the raw caller-supplied columns before
`prepare_values`, or the adapted form (index plus by-key-indexable series)
afterwards. -/
inductive ValuesRep : Type
  | raw : List (String × List ℚ) → ValuesRep
  | adapted : List ℚ → List (String × List (ℚ × ℚ)) → ValuesRep
deriving DecidableEq

/-- The adapted series of a `ValuesRep` (`self._values.keys()` iteration plus
column access); the pipeline only reads this after `prepare_values`. -/
def ValuesRep.seriesOf : ValuesRep → List (String × List (ℚ × ℚ))
  | .raw _ => []
  | .adapted _ s => s

/-- A glyph specification: `Line(x=…, y=…, line_color=…)` or
`Segment(x0=…, y0=…, x1=…, y1=…, line_color=…)`, with named-column bindings. -/
inductive Glyph : Type
  | line : String → String → String → Glyph
  | segment : String → String → String → String → String → Glyph
deriving DecidableEq

/-- `GlyphRenderer(data_source=…, glyph=…)`; the `ColumnDataSource` is
modelled by the column mapping it was constructed from. -/
structure GlyphRenderer : Type where
  data_source : List (String × List ℚ)
  glyph : Glyph
deriving DecidableEq

/-- A range model object: `Range1d(start=…, end=…)` with numeric bounds, or
`DataRange1d(sources=…)` referencing named columns of the source. -/
inductive Range : Type
  | range1d : ℚ → ℚ → Range
  | dataRange1d : List String → Range
deriving DecidableEq

/-- The mutable attributes of a `Builder` instance that the pipeline reads
and writes. -/
structure BuilderState : Type where
  index : IndexSpec
  _values : ValuesRep
  _values_index : List ℚ
  _legends : List (String × List GlyphRenderer)
  _data : List (String × List ℚ)
  _groups : List String
  _attr : List String
  _source : Option (List (String × List ℚ))
  x_range : Option Range
  y_range : Option Range
deriving DecidableEq

/-- `Builder.__init__`: `values=None` is replaced by an empty list; the
legend, data, groups and attribute containers start empty.  (`index` and
`_source` are the class-level defaults, `None`.) -/
def Builder.init (values : Option (List (String × List ℚ))) : BuilderState :=
  { index := .noneSpec
    _values := .raw (values.getD [])
    _values_index := []
    _legends := []
    _data := []
    _groups := []
    _attr := []
    _source := none
    x_range := none
    y_range := none }

/-- A freshly constructed concrete builder whose `index` property has been
set to `ix` (for `StepBuilder` this happens through the `HasProps` keyword
machinery; for the claims about `LineBuilder` it is the stated premise). -/
def mkBuilder (values : List (String × List ℚ)) (ix : IndexSpec) : BuilderState :=
  { Builder.init (some values) with index := ix }

/-- Modelled from the spec: `DataAdapter.get_index_and_data` (not under
`src/`).  A column-name index is extracted as the index sequence and removed
from the data series (failing when the key is absent); an explicit sequence
is used as given; otherwise a positional index is generated.  Every adapted
series is indexable by index key.  Already-adapted values pass through
unchanged, so re-running the pipeline restarts it on the same adapted data. -/
def DataAdapter.get_index_and_data :
    ValuesRep → IndexSpec → Option (List ℚ × List (String × List (ℚ × ℚ)))
  | .raw vs, .col s =>
    match dictGet vs s with
    | some xs => some (xs, (vs.filter (fun p => !(p.1 == s))).map (fun p => (p.1, xs.zip p.2)))
    | none => none
  | .raw vs, .seq l => some (l, vs.map (fun p => (p.1, l.zip p.2)))
  | .raw vs, .noneSpec =>
    let n := (vs.head?.map (fun p => p.2.length)).getD 0
    let idx := (List.range n).map (fun i => (i : ℚ))
    some (idx, vs.map (fun p => (p.1, idx.zip p.2)))
  | .adapted idx s, _ => some (idx, s)

/-- `Builder.prepare_values`: converts `self._values` to the adapter form and
sets `self._values_index` (the concrete builders declare an `index` property,
so the `hasattr` branch taken is the `get_index_and_data` one). -/
def Builder.prepare_values (b : BuilderState) : Option BuilderState :=
  match DataAdapter.get_index_and_data b._values b.index with
  | some (idx, s) => some { b with _values_index := idx, _values := .adapted idx s }
  | none => none

/-- `Builder.set_and_get(prefix, val, content)` (via `_set_and_get`): stores
`content` in `self._data` under key `prefix + val` and appends that key to
`self._attr`. -/
def Builder.set_and_get (b : BuilderState) (pfx v : String) (content : List ℚ) :
    BuilderState :=
  { b with _data := dictInsert b._data (pfx ++ v) content
           _attr := b._attr ++ [pfx ++ v] }

/-- One iteration of the `for col in self._values.keys()` loop of
`LineBuilder.get_data`: skip the index column, record the group, and store
the y-column `"y_" + col` built by indexing the series at each index key. -/
def lineStep (xs : List ℚ) (ix : IndexSpec) (b : BuilderState)
    (p : String × List (ℚ × ℚ)) : BuilderState :=
  if indexMatches ix p.1 then b
  else
    Builder.set_and_get { b with _groups := b._groups ++ [p.1] }
      "y_" p.1 (xs.map (keyLookup p.2))

/-- `LineBuilder.get_data`: resets `_data` and `_attr` (but not `_groups`),
stores the `"x"` column from the index, then one `"y_" + col` column per
non-index series. -/
def LineBuilder.get_data (b0 : BuilderState) : BuilderState :=
  let b := { b0 with _data := [], _attr := [] }
  let xs := b._values_index
  let b := Builder.set_and_get b "x" "" xs
  (ValuesRep.seriesOf b._values).foldl (lineStep xs b0.index) b

/-- One iteration of the `for col in self._values.keys()` loop of
`StepBuilder.get_data`: skip the index column, record the group, and store
the two half-columns `"y1_" + col` (values[:-1]) and `"y2_" + col`
(values[1:]). -/
def stepStep (xs : List ℚ) (ix : IndexSpec) (b : BuilderState)
    (p : String × List (ℚ × ℚ)) : BuilderState :=
  if indexMatches ix p.1 then b
  else
    let b := { b with _groups := b._groups ++ [p.1] }
    let values := xs.map (keyLookup p.2)
    let b := Builder.set_and_get b "y1_" p.1 values.dropLast
    Builder.set_and_get b "y2_" p.1 (values.drop 1)

/-- `StepBuilder.get_data`: resets `_data`, `_attr` and `_groups`, stores
`"x"` = index[:-1] and `"x2"` = index[1:], then the two half-columns per
non-index series. -/
def StepBuilder.get_data (b0 : BuilderState) : BuilderState :=
  let b := { b0 with _data := [], _attr := [], _groups := [] }
  let xs := b._values_index
  let b := Builder.set_and_get b "x" "" xs.dropLast
  let b := Builder.set_and_get b "x2" "" (xs.drop 1)
  (ValuesRep.seriesOf b._values).foldl (stepStep xs b0.index) b

/-- `max(self._data[i])` for one column (`none` = empty-sequence
`ValueError`). -/
def listMax : List ℚ → Option ℚ
  | [] => none
  | x :: xs => some (xs.foldl max x)

/-- `min(self._data[i])` for one column. -/
def listMin : List ℚ → Option ℚ
  | [] => none
  | x :: xs => some (xs.foldl min x)

/-- `max(max(self._data[i]) for i in y_names)`: fails on a missing key
(`KeyError`), an empty column, or an empty `y_names` (`ValueError`). -/
def maxOfCols (data : List (String × List ℚ)) (names : List String) : Option ℚ := do
  let vals ← names.mapM (fun i => do listMax (← dictGet data i))
  listMax vals

/-- `min(min(self._data[i]) for i in y_names)`. -/
def minOfCols (data : List (String × List ℚ)) (names : List String) : Option ℚ := do
  let vals ← names.mapM (fun i => do listMin (← dictGet data i))
  listMin vals

/-- The `Range1d(start=starty - 0.1*(endy-starty), end=endy + 0.1*(endy-starty))`
computation shared by both `get_source` methods, over the named columns. -/
def yRangeOf (data : List (String × List ℚ)) (y_names : List String) : Option Range :=
  match maxOfCols data y_names, minOfCols data y_names with
  | some endy, some starty =>
    some (.range1d (starty - 0.1 * (endy - starty)) (endy + 0.1 * (endy - starty)))
  | _, _ => none

/-- `LineBuilder.get_source`: builds the `ColumnDataSource` from `_data`, an
x data-range over the `"x"` column, and the padded y-range over the columns
named by `self._attr[1:]`.  A failing `min`/`max` propagates as a failure. -/
def LineBuilder.get_source (b : BuilderState) : Option BuilderState :=
  (yRangeOf b._data (b._attr.drop 1)).map (fun yr =>
    { b with _source := some b._data
             x_range := some (.dataRange1d ["x"])
             y_range := some yr })

/-- `StepBuilder.get_source`: like Line but the x data-range spans the `"x"`
and `"x2"` columns.  Note the source also takes `y_names = self._attr[1:]`,
which starts at the `"x2"` entry of the attribute list. -/
def StepBuilder.get_source (b : BuilderState) : Option BuilderState :=
  (yRangeOf b._data (b._attr.drop 1)).map (fun yr =>
    { b with _source := some b._data
             x_range := some (.dataRange1d ["x", "x2"])
             y_range := some yr })

/-- The line renderer built for one `(i, duplet)` of
`enumerate(self._attr[1:], start=1)`. -/
def lineRenderer (colors : List String) (src : List (String × List ℚ))
    (p : Nat × String) : GlyphRenderer :=
  { data_source := src, glyph := .line "x" p.2 (colors.getD (p.1 - 1) "") }

/-- One iteration of the `LineBuilder.draw` loop: build the line glyph and
renderer, record the legend entry `(self._groups[i-1], [renderer])`, and
yield the renderer. -/
def lineDrawStep (colors : List String) (acc : BuilderState × List GlyphRenderer)
    (p : Nat × String) : BuilderState × List GlyphRenderer :=
  let b := acc.1
  let renderer := lineRenderer colors (b._source.getD []) p
  ({ b with _legends := b._legends ++ [(b._groups.getD (p.1 - 1) "", [renderer])] },
   acc.2 ++ [renderer])

/-- `LineBuilder.draw`: one line renderer per y-attribute, in attribute
order; the generator is consumed eagerly and in full by the orchestration,
so it is modelled as the final builder state paired with the yielded list. -/
def LineBuilder.draw (b : BuilderState) : BuilderState × List GlyphRenderer :=
  let colors := cycle_colors b._attr
  (List.enumFrom 1 (b._attr.drop 1)).foldl (lineDrawStep colors) (b, [])

/-- The two segment renderers built for one `(i, duplet)` of
`enumerate(tuples)` in `StepBuilder.draw`: the horizontal step segment
(`x0="x2", y0=duplet[0], x1="x2", y1=duplet[1]`) and the vertical one
(`x0="x", y0=duplet[0], x1="x2", y1=duplet[0]`). -/
def stepRenderers (colors : List String) (src : List (String × List ℚ))
    (p : Nat × List String) : GlyphRenderer × GlyphRenderer :=
  ({ data_source := src
     glyph := .segment "x2" (p.2.getD 0 "") "x2" (p.2.getD 1 "") (colors.getD p.1 "") },
   { data_source := src
     glyph := .segment "x" (p.2.getD 0 "") "x2" (p.2.getD 0 "") (colors.getD p.1 "") })

/-- One iteration of the `StepBuilder.draw` loop: yield the two segment
renderers and record the legend entry `(self._groups[i], [renderer])` for the
second (vertical) one only. -/
def stepDrawStep (colors : List String) (acc : BuilderState × List GlyphRenderer)
    (p : Nat × List String) : BuilderState × List GlyphRenderer :=
  let b := acc.1
  let rs := stepRenderers colors (b._source.getD []) p
  ({ b with _legends := b._legends ++ [(b._groups.getD p.1 "", [rs.2])] },
   acc.2 ++ [rs.1, rs.2])

/-- `StepBuilder.draw`: pairs the attribute names from `self._attr[2:]` two
at a time and yields two segment renderers per pair, in pair order. -/
def StepBuilder.draw (b : BuilderState) : BuilderState × List GlyphRenderer :=
  let tuples := chunk 2 (b._attr.drop 2)
  let colors := cycle_colors tuples
  tuples.enum.foldl (stepDrawStep colors) (b, [])

/-- Modelled from the spec: the `Chart` accumulator collaborator (not under
`src/`): renderer and legend registration are purely additive, and the range
slots are mutable and `None` when unset.  The builder identity passed to
`add_renderers` is not observable here. -/
structure Chart : Type where
  renderers : List GlyphRenderer
  x_range : Option Range
  y_range : Option Range
  legends : List (String × List GlyphRenderer)
deriving DecidableEq

/-- Modelled from the spec: `Chart.add_renderers` appends the renderer
sequence. -/
def Chart.add_renderers (c : Chart) (rs : List GlyphRenderer) : Chart :=
  { c with renderers := c.renderers ++ rs }

/-- Modelled from the spec: `Chart.add_legend` appends the legend entries. -/
def Chart.add_legend (c : Chart) (ls : List (String × List GlyphRenderer)) : Chart :=
  { c with legends := c.legends ++ ls }

/-- A chart with nothing registered and both ranges unset. -/
def emptyChart : Chart := { renderers := [], x_range := none, y_range := none, legends := [] }

/-- `Builder.create(chart)`: prepare → `get_data` → `get_source` → `draw`,
register the renderers, assign each chart range only if currently unset
(`if not chart.x_range`), unconditionally register the legends, and return
the chart.  The hook methods are the concrete builder's overrides. -/
def Builder.create (gd : BuilderState → BuilderState)
    (gs : BuilderState → Option BuilderState)
    (dr : BuilderState → BuilderState × List GlyphRenderer)
    (b : BuilderState) (chart : Chart) : Option (BuilderState × Chart) :=
  match Builder.prepare_values b with
  | none => none
  | some b1 =>
    let b2 := gd b1
    match gs b2 with
    | none => none
    | some b3 =>
      let p := dr b3
      let b4 := p.1
      let chart1 := chart.add_renderers p.2
      let chart2 := if chart1.x_range.isNone then { chart1 with x_range := b4.x_range } else chart1
      let chart3 := if chart2.y_range.isNone then { chart2 with y_range := b4.y_range } else chart2
      some (b4, chart3.add_legend b4._legends)

/-- `LineBuilder`'s `create`, instantiating the base orchestration with the
Line hooks. -/
def LineBuilder.create (b : BuilderState) (chart : Chart) :
    Option (BuilderState × Chart) :=
  Builder.create LineBuilder.get_data LineBuilder.get_source LineBuilder.draw b chart

/-- `StepBuilder`'s `create`, instantiating the base orchestration with the
Step hooks. -/
def StepBuilder.create (b : BuilderState) (chart : Chart) :
    Option (BuilderState × Chart) :=
  Builder.create StepBuilder.get_data StepBuilder.get_source StepBuilder.draw b chart

/-- The property names declared by the `Builder` class body: `x_range`,
`y_range` and `alette` (the palette property is misspelled in the source, so
the name `palette` is not declared).  `HasProps.properties()` introspection
itself is external; per the spec it collects the declared option names. -/
def Builder.propNames : List String := ["x_range", "y_range", "alette"]

/-- The property names of `LineBuilder`: the inherited ones plus its declared
`index` property. -/
def LineBuilder.propNames : List String := Builder.propNames ++ ["index"]

/-- The property names of `StepBuilder`: the inherited ones plus its declared
`index` property. -/
def StepBuilder.propNames : List String := Builder.propNames ++ ["index"]

/-- The keyword-splitting step of `create_and_build`: the two dict
comprehensions route every option to the builder when its name is among the
builder class's declared property names, and to the chart otherwise. -/
def create_and_build_kws (builder_props : List String)
    (kws : List (String × String)) :
    List (String × String) × List (String × String) :=
  (kws.filter (fun p => builder_props.contains p.1),
   kws.filter (fun p => !(builder_props.contains p.1)))

/-! ### Dictionary lemmas -/

/-- After overwriting every entry at key `k`, the first entry found at `k`
is the new one. -/
theorem find?_map_overwrite {α : Type} (d : List (String × α)) (k : String) (v : α)
    (h : d.any (fun p => p.1 == k) = true) :
    (d.map (fun p => if p.1 == k then (k, v) else p)).find? (fun p => p.1 == k)
      = some (k, v) := by
  induction d with
  | nil => simp at h
  | cons q d ih =>
    by_cases hq : (q.1 == k) = true
    · simp only [List.map_cons, if_pos hq]
      exact List.find?_cons_of_pos _ (by simp)
    · simp only [List.any_cons, Bool.or_eq_true] at h
      rcases h with h | h
      · exact absurd h hq
      · simp only [List.map_cons, if_neg hq]
        rw [List.find?_cons_of_neg (p := fun r : String × α => r.1 == k) _ hq]
        exact ih h

/-- Appending a fresh entry at key `k` to a dict without `k` makes it the
first (and only) entry found at `k`. -/
theorem find?_append_fresh {α : Type} (d : List (String × α)) (k : String) (v : α)
    (h : d.any (fun p => p.1 == k) = false) :
    (d ++ [(k, v)]).find? (fun p => p.1 == k) = some (k, v) := by
  induction d with
  | nil => exact List.find?_cons_of_pos _ (by simp)
  | cons q d ih =>
    simp only [List.any_cons, Bool.or_eq_false_iff] at h
    simp only [List.cons_append]
    rw [List.find?_cons_of_neg (p := fun r : String × α => r.1 == k) _ (by simp [h.1])]
    exact ih (by simp [h.2])

/-- Looking up a key right after inserting it yields the inserted content. -/
theorem dictGet_dictInsert_self {α : Type} (d : List (String × α)) (k : String) (v : α) :
    dictGet (dictInsert d k v) k = some v := by
  unfold dictInsert dictGet
  by_cases h : d.any (fun p => p.1 == k) = true
  · simp only [if_pos h, find?_map_overwrite d k v h, Option.map_some']
  · have hf : d.any (fun p => p.1 == k) = false := by
      cases hval : d.any (fun p => p.1 == k) with
      | false => rfl
      | true => exact absurd hval h
    simp only [if_neg h, find?_append_fresh d k v hf, Option.map_some']

/-- Inserting at an existing key keeps the key sequence of the dict
unchanged (silent overwrite, no new entry). -/
theorem dictInsert_keys_of_mem {α : Type} (d : List (String × α)) (k : String) (v : α)
    (h : k ∈ d.map Prod.fst) :
    (dictInsert d k v).map Prod.fst = d.map Prod.fst := by
  have hany : d.any (fun p => p.1 == k) = true := by
    simp only [List.any_eq_true]
    rcases List.mem_map.mp h with ⟨p, hp, hk⟩
    exact ⟨p, hp, by simp [hk]⟩
  unfold dictInsert
  simp only [hany, if_true, List.map_map]
  apply List.map_congr_left
  intro p _
  by_cases hp : (p.1 == k) = true
  · simp only [Function.comp_apply, if_pos hp]
    exact (eq_of_beq hp).symm
  · simp only [Function.comp_apply, if_neg hp]

/-- Inserting at an existing key does not change the number of entries. -/
theorem dictInsert_length_of_mem {α : Type} (d : List (String × α)) (k : String) (v : α)
    (h : k ∈ d.map Prod.fst) :
    (dictInsert d k v).length = d.length := by
  have := congrArg List.length (dictInsert_keys_of_mem d k v h)
  simpa using this

/-- C3: `set_and_get(prefix, name, content)` stores `content` in the derived
data map under key `prefix+name` and appends that key to the attribute list;
a colliding key silently overwrites the previous content while the
(duplicate) key is still appended, so the attribute list becomes strictly
longer than the map whenever it was at least as long before. -/
theorem set_and_get_stores_and_appends (b : BuilderState) (pfx v : String)
    (content : List ℚ) :
    dictGet (Builder.set_and_get b pfx v content)._data (pfx ++ v) = some content ∧
    (Builder.set_and_get b pfx v content)._attr = b._attr ++ [pfx ++ v] ∧
    ((pfx ++ v) ∈ b._data.map Prod.fst →
      (Builder.set_and_get b pfx v content)._data.map Prod.fst = b._data.map Prod.fst) ∧
    ((pfx ++ v) ∈ b._data.map Prod.fst → b._data.length ≤ b._attr.length →
      (Builder.set_and_get b pfx v content)._data.length
        < (Builder.set_and_get b pfx v content)._attr.length) := by
  refine ⟨dictGet_dictInsert_self b._data (pfx ++ v) content, rfl, ?_, ?_⟩
  · intro hmem
    exact dictInsert_keys_of_mem b._data (pfx ++ v) content hmem
  · intro hmem hle
    simp only [Builder.set_and_get, dictInsert_length_of_mem b._data (pfx ++ v) content hmem,
      List.length_append, List.length_cons, List.length_nil]
    omega

/-- Witness input for C3: a builder that already holds the key `"y_a"` with
one attribute entry. -/
def collisionBuilder : BuilderState :=
  { Builder.init none with _data := [("y_a", [1])], _attr := ["y_a"] }

/-- Witness for the C3 theorem: at the concrete collision the new content is
stored, the key is re-appended, the key set is unchanged and the attribute
list becomes strictly longer than the map. -/
theorem set_and_get_stores_and_appends_witness :
    dictGet (Builder.set_and_get collisionBuilder "y_" "a" [2])._data ("y_" ++ "a")
      = some [2] ∧
    (Builder.set_and_get collisionBuilder "y_" "a" [2])._attr = ["y_a", "y_a"] ∧
    (Builder.set_and_get collisionBuilder "y_" "a" [2])._data.map Prod.fst = ["y_a"] ∧
    (Builder.set_and_get collisionBuilder "y_" "a" [2])._data.length
      < (Builder.set_and_get collisionBuilder "y_" "a" [2])._attr.length := by
  have h := set_and_get_stores_and_appends collisionBuilder "y_" "a" [2]
  refine ⟨h.1, ?_, ?_, h.2.2.2 (by decide) (by decide)⟩
  · rw [h.2.1]; decide
  · rw [h.2.2.1 (by decide)]; decide

/-- C10: `Builder(None)` stores an empty list as the raw values and
initializes the legend, data, groups and attribute containers empty. -/
theorem builder_init_none_defaults :
    (Builder.init none)._values = .raw [] ∧
    (Builder.init none)._legends = [] ∧
    (Builder.init none)._data = [] ∧
    (Builder.init none)._groups = [] ∧
    (Builder.init none)._attr = [] := by
  decide

/-- The Line example-scenario input of the spec. -/
def lineExampleValues : List (String × List ℚ) :=
  [("x", [1, 2, 3]), ("a", [1, 4, 9]), ("b", [2, 3, 5])]

section ConcreteEvaluations

attribute [local semireducible] Rat.mul Rat.add Rat.sub Rat.inv Rat.ofScientific

/-- C6: on `{"x": [1,2,3], "a": [1,4,9], "b": [2,3,5]}` with `index="x"`,
`LineBuilder.get_data` produces x=[1,2,3], y_a=[1,4,9], y_b=[2,3,5];
`get_source` produces `y_range = [0.2, 9.8]`; `draw` yields 2 renderers and
records the legends in order a, b. -/
theorem line_example_scenario :
    ((Builder.prepare_values (mkBuilder lineExampleValues (.col "x"))).bind
      (fun bp => (LineBuilder.get_source (LineBuilder.get_data bp)).map
        (fun bs => (bs._data, bs.y_range,
          (LineBuilder.draw bs).2.length, (LineBuilder.draw bs).1._legends.map Prod.fst))))
    = some ([("x", [1, 2, 3]), ("y_a", [1, 4, 9]), ("y_b", [2, 3, 5])],
        some (.range1d (1 / 5 : ℚ) (49 / 5)), 2, ["a", "b"]) := by
  decide

/-- The Step input exhibiting the y-range defect: index [0, 100] with one
series a = [1, 2]. -/
def stepRangeInput : List (String × List ℚ) := [("a", [1, 2])]

/-- C1 (failing evaluation): on index [0,100], a=[1,2] the Step derived data
is x=[0], x2=[100], y1_a=[1], y2_a=[2]; the y-columns span [1, 2], so the
claimed range is [0.9, 2.1], but `get_source` takes `y_names = _attr[1:]`,
which includes the `"x2"` column, and computes `Range1d(-8.9, 109.9)`. -/
theorem step_y_range_includes_x2_column :
    ((Builder.prepare_values (mkBuilder stepRangeInput (.seq [0, 100]))).bind
      (fun bp => (StepBuilder.get_source (StepBuilder.get_data bp)).map
        (fun bs => (bs._data, bs.y_range))))
    = some ([("x", [0]), ("x2", [100]), ("y1_a", [1]), ("y2_a", [2])],
        some (.range1d (-89 / 10 : ℚ) (1099 / 10))) ∧
    (.range1d (-89 / 10 : ℚ) (1099 / 10) : Range) ≠ .range1d (9 / 10) (21 / 10) := by
  constructor
  · decide
  · decide

/-- The concrete input of the C2 counterexample: one series over a two-point
explicit index. -/
def smallValues : List (String × List ℚ) := [("a", [1, 2])]

/-- Counterexample to C2 as stated: running `create()` twice on the same
`LineBuilder` instance yields `_groups = ["a", "a"]` and two legend entries,
whereas a single `create()` on a fresh builder yields `_groups = ["a"]` and
one legend entry — `_groups` and `_legends` accumulate across calls. -/
theorem create_second_run_not_fresh_counterexample :
    ((LineBuilder.create (mkBuilder smallValues (.seq [0, 1])) emptyChart).bind
        (fun r => (LineBuilder.create r.1 emptyChart).map
          (fun r2 => (r2.1._groups, r2.1._legends.length))))
      = some (["a", "a"], 2) ∧
    ((LineBuilder.create (mkBuilder smallValues (.seq [0, 1])) emptyChart).map
        (fun r => (r.1._groups, r.1._legends.length)))
      = some (["a"], 1) ∧
    (["a", "a"] : List String) ≠ ["a"] := by
  refine ⟨by decide, by decide, by decide⟩

end ConcreteEvaluations

/-! ### Closed forms of the `get_data` loops -/

/-- The non-index series of the adapted values: the series that survive the
skip test of the `get_data` loops. -/
def ySeries (ix : IndexSpec) (vr : ValuesRep) : List (String × List (ℚ × ℚ)) :=
  (ValuesRep.seriesOf vr).filter (fun p => !(indexMatches ix p.1))

/-- The `LineBuilder.get_data` loop, characterized: it appends the non-index
series names to `_groups`, appends their `"y_"` keys to `_attr`, and inserts
their columns into `_data` in series order. -/
theorem lineFold_eq (xs : List ℚ) (ix : IndexSpec) :
    ∀ (series : List (String × List (ℚ × ℚ))) (b : BuilderState),
    series.foldl (lineStep xs ix) b =
      { b with
        _groups := b._groups ++ (series.filter (fun p => !(indexMatches ix p.1))).map Prod.fst
        _attr := b._attr ++
          (series.filter (fun p => !(indexMatches ix p.1))).map (fun p => "y_" ++ p.1)
        _data := ((series.filter (fun p => !(indexMatches ix p.1))).map
            (fun p => ("y_" ++ p.1, xs.map (keyLookup p.2)))).foldl
            (fun d e => dictInsert d e.1 e.2) b._data } := by
  intro series
  induction series with
  | nil => intro b; simp
  | cons p series ih =>
    intro b
    by_cases hp : indexMatches ix p.1 = true
    · simp only [List.foldl_cons, lineStep, if_pos hp, List.filter_cons, hp, Bool.not_true,
        Bool.false_eq_true, if_false]
      exact ih b
    · simp only [List.foldl_cons, lineStep, if_neg hp, Builder.set_and_get]
      rw [ih]
      simp only [List.filter_cons, Bool.not_eq_true] at hp ⊢
      simp [hp, List.append_assoc]

/-- The `StepBuilder.get_data` loop, characterized: it appends the non-index
series names to `_groups`, appends their interleaved `"y1_"`/`"y2_"` keys to
`_attr`, and inserts the two half-columns per series into `_data` in series
order. -/
theorem stepFold_eq (xs : List ℚ) (ix : IndexSpec) :
    ∀ (series : List (String × List (ℚ × ℚ))) (b : BuilderState),
    series.foldl (stepStep xs ix) b =
      { b with
        _groups := b._groups ++ (series.filter (fun p => !(indexMatches ix p.1))).map Prod.fst
        _attr := b._attr ++
          (series.filter (fun p => !(indexMatches ix p.1))).flatMap
            (fun p => ["y1_" ++ p.1, "y2_" ++ p.1])
        _data := ((series.filter (fun p => !(indexMatches ix p.1))).flatMap
            (fun p => [("y1_" ++ p.1, (xs.map (keyLookup p.2)).dropLast),
                       ("y2_" ++ p.1, (xs.map (keyLookup p.2)).drop 1)])).foldl
            (fun d e => dictInsert d e.1 e.2) b._data } := by
  intro series
  induction series with
  | nil => intro b; simp
  | cons p series ih =>
    intro b
    by_cases hp : indexMatches ix p.1 = true
    · simp only [List.foldl_cons, stepStep, if_pos hp, List.filter_cons, hp, Bool.not_true,
        Bool.false_eq_true, if_false]
      exact ih b
    · simp only [List.foldl_cons, stepStep, if_neg hp, Builder.set_and_get]
      rw [ih]
      simp only [List.filter_cons, Bool.not_eq_true] at hp ⊢
      simp [hp, List.append_assoc]

/-- `LineBuilder.get_data`, fully characterized on the builder state. -/
theorem line_get_data_eq (b : BuilderState) :
    LineBuilder.get_data b =
      { b with
        _groups := b._groups ++ (ySeries b.index b._values).map Prod.fst
        _attr := "x" :: (ySeries b.index b._values).map (fun p => "y_" ++ p.1)
        _data := ((ySeries b.index b._values).map
            (fun p => ("y_" ++ p.1, b._values_index.map (keyLookup p.2)))).foldl
            (fun d e => dictInsert d e.1 e.2) [("x", b._values_index)] } := by
  unfold LineBuilder.get_data
  rw [lineFold_eq]
  simp [Builder.set_and_get, ySeries, dictInsert]

/-- `StepBuilder.get_data`, fully characterized on the builder state. -/
theorem step_get_data_eq (b : BuilderState) :
    StepBuilder.get_data b =
      { b with
        _groups := (ySeries b.index b._values).map Prod.fst
        _attr := "x" :: "x2" ::
          (ySeries b.index b._values).flatMap (fun p => ["y1_" ++ p.1, "y2_" ++ p.1])
        _data := ((ySeries b.index b._values).flatMap
            (fun p => [("y1_" ++ p.1, (b._values_index.map (keyLookup p.2)).dropLast),
                       ("y2_" ++ p.1, (b._values_index.map (keyLookup p.2)).drop 1)])).foldl
            (fun d e => dictInsert d e.1 e.2)
            [("x", b._values_index.dropLast), ("x2", b._values_index.drop 1)] } := by
  unfold StepBuilder.get_data
  rw [stepFold_eq]
  simp [Builder.set_and_get, ySeries, dictInsert]

/-! ### Closed forms of the `draw` generators -/

/-- The `LineBuilder.draw` loop, characterized: the yielded renderers are one
line renderer per enumerated y-attribute and the legend entries pair each
with the group at the same position. -/
theorem lineDrawFold_eq (colors : List String) :
    ∀ (l : List (Nat × String)) (b : BuilderState) (rs : List GlyphRenderer),
    l.foldl (lineDrawStep colors) (b, rs) =
      ({ b with _legends := b._legends ++ l.map (fun p =>
            (b._groups.getD (p.1 - 1) "", [lineRenderer colors (b._source.getD []) p])) },
       rs ++ l.map (lineRenderer colors (b._source.getD []))) := by
  intro l
  induction l with
  | nil => intro b rs; simp
  | cons p l ih =>
    intro b rs
    simp only [List.foldl_cons, lineDrawStep]
    rw [ih]
    simp [List.append_assoc]

/-- `LineBuilder.draw`, fully characterized on the builder state. -/
theorem line_draw_eq (b : BuilderState) :
    LineBuilder.draw b =
      ({ b with _legends := b._legends ++ (List.enumFrom 1 (b._attr.drop 1)).map (fun p =>
            (b._groups.getD (p.1 - 1) "",
             [lineRenderer (cycle_colors b._attr) (b._source.getD []) p])) },
       (List.enumFrom 1 (b._attr.drop 1)).map
         (lineRenderer (cycle_colors b._attr) (b._source.getD []))) := by
  unfold LineBuilder.draw
  exact lineDrawFold_eq _ _ _ _

/-- The `StepBuilder.draw` loop, characterized: each enumerated pair yields
its two segment renderers and a legend entry holding only the second one. -/
theorem stepDrawFold_eq (colors : List String) :
    ∀ (l : List (Nat × List String)) (b : BuilderState) (rs : List GlyphRenderer),
    l.foldl (stepDrawStep colors) (b, rs) =
      ({ b with _legends := b._legends ++ l.map (fun p =>
            (b._groups.getD p.1 "", [(stepRenderers colors (b._source.getD []) p).2])) },
       rs ++ l.flatMap (fun p =>
         [(stepRenderers colors (b._source.getD []) p).1,
          (stepRenderers colors (b._source.getD []) p).2])) := by
  intro l
  induction l with
  | nil => intro b rs; simp
  | cons p l ih =>
    intro b rs
    simp only [List.foldl_cons, stepDrawStep]
    rw [ih]
    simp [List.append_assoc]

/-- `StepBuilder.draw`, fully characterized on the builder state. -/
theorem step_draw_eq (b : BuilderState) :
    StepBuilder.draw b =
      ({ b with _legends := b._legends ++ (chunk 2 (b._attr.drop 2)).enum.map (fun p =>
            (b._groups.getD p.1 "",
             [(stepRenderers (cycle_colors (chunk 2 (b._attr.drop 2))) (b._source.getD []) p).2])) },
       (chunk 2 (b._attr.drop 2)).enum.flatMap (fun p =>
         [(stepRenderers (cycle_colors (chunk 2 (b._attr.drop 2))) (b._source.getD []) p).1,
          (stepRenderers (cycle_colors (chunk 2 (b._attr.drop 2))) (b._source.getD []) p).2])) := by
  unfold StepBuilder.draw
  exact stepDrawFold_eq _ _ _ _

/-! ### Shapes of `get_source` and `create` -/

/-- A successful `LineBuilder.get_source` sets the source, the x data-range
over `"x"` and the computed y-range, and changes nothing else. -/
theorem line_get_source_some (b b' : BuilderState)
    (h : LineBuilder.get_source b = some b') :
    ∃ yr, yRangeOf b._data (b._attr.drop 1) = some yr ∧
      b' = { b with _source := some b._data, x_range := some (.dataRange1d ["x"]),
                    y_range := some yr } := by
  unfold LineBuilder.get_source at h
  cases hyr : yRangeOf b._data (b._attr.drop 1) with
  | none => rw [hyr] at h; simp at h
  | some yr =>
    rw [hyr] at h
    simp only [Option.map_some', Option.some.injEq] at h
    exact ⟨yr, rfl, h.symm⟩

/-- A successful `StepBuilder.get_source` sets the source, the x data-range
over `"x"` and `"x2"` and the computed y-range, and changes nothing else. -/
theorem step_get_source_some (b b' : BuilderState)
    (h : StepBuilder.get_source b = some b') :
    ∃ yr, yRangeOf b._data (b._attr.drop 1) = some yr ∧
      b' = { b with _source := some b._data, x_range := some (.dataRange1d ["x", "x2"]),
                    y_range := some yr } := by
  unfold StepBuilder.get_source at h
  cases hyr : yRangeOf b._data (b._attr.drop 1) with
  | none => rw [hyr] at h; simp at h
  | some yr =>
    rw [hyr] at h
    simp only [Option.map_some', Option.some.injEq] at h
    exact ⟨yr, rfl, h.symm⟩

/-- The chart updates performed by `Builder.create` after drawing: register
the renderers, assign each unset range, register the legends. -/
def chartAfterCreate (c : Chart) (b4 : BuilderState) (rs : List GlyphRenderer) : Chart :=
  let chart1 := c.add_renderers rs
  let chart2 := if chart1.x_range.isNone then { chart1 with x_range := b4.x_range } else chart1
  let chart3 := if chart2.y_range.isNone then { chart2 with y_range := b4.y_range } else chart2
  chart3.add_legend b4._legends

/-- A successful `Builder.create` decomposes into a successful prepare, a
successful `get_source` after `get_data`, the drawn state, and the chart
updates in orchestration order. -/
theorem create_some_elim (gd : BuilderState → BuilderState)
    (gs : BuilderState → Option BuilderState)
    (dr : BuilderState → BuilderState × List GlyphRenderer)
    (b : BuilderState) (c : Chart) (b' : BuilderState) (c' : Chart)
    (h : Builder.create gd gs dr b c = some (b', c')) :
    ∃ bp bs, Builder.prepare_values b = some bp ∧ gs (gd bp) = some bs ∧
      b' = (dr bs).1 ∧ c' = chartAfterCreate c (dr bs).1 (dr bs).2 := by
  unfold Builder.create at h
  cases hp : Builder.prepare_values b with
  | none => rw [hp] at h; simp at h
  | some bp =>
    rw [hp] at h
    dsimp only at h
    cases hgs : gs (gd bp) with
    | none => rw [hgs] at h; simp at h
    | some bs =>
      rw [hgs] at h
      dsimp only at h
      simp only [Option.some.injEq, Prod.mk.injEq] at h
      exact ⟨bp, bs, rfl, hgs, h.1.symm, by rw [← h.2]; rfl⟩

/-- C4: a successful `create(chart)` assigns the builder's x-range (resp.
y-range) to the chart only when the chart's range is currently unset — an
already-set range is left unchanged — while the legend entries are registered
unconditionally and the renderer registration is purely additive on the
returned chart. -/
theorem create_first_writer_wins (gd : BuilderState → BuilderState)
    (gs : BuilderState → Option BuilderState)
    (dr : BuilderState → BuilderState × List GlyphRenderer)
    (b b' : BuilderState) (c c' : Chart)
    (h : Builder.create gd gs dr b c = some (b', c')) :
    (c.x_range = none → c'.x_range = b'.x_range) ∧
    (c.x_range ≠ none → c'.x_range = c.x_range) ∧
    (c.y_range = none → c'.y_range = b'.y_range) ∧
    (c.y_range ≠ none → c'.y_range = c.y_range) ∧
    c'.legends = c.legends ++ b'._legends ∧
    (∃ rs, c'.renderers = c.renderers ++ rs) := by
  obtain ⟨bp, bs, hp, hgs, hb, hc⟩ := create_some_elim gd gs dr b c b' c' h
  subst hb
  subst hc
  refine ⟨?_, ?_, ?_, ?_, ?_, ⟨(dr bs).2, ?_⟩⟩ <;>
    cases hx : c.x_range <;> cases hy : c.y_range <;>
      simp [chartAfterCreate, Chart.add_renderers, Chart.add_legend, hx, hy]

/-- The builder state produced by preparing empty raw values with no index. -/
def trivialPrepared : BuilderState :=
  { Builder.init none with _values := .adapted [] [] }

/-- Witness for the C4 theorem at a concrete instance: trivial hooks on an
empty builder and a chart with unset ranges — the chart's unset x-range is
assigned the builder's, and the legends are appended. -/
theorem create_first_writer_wins_witness :
    emptyChart.x_range = none ∧
    Builder.create id some (fun b => (b, [])) (Builder.init none) emptyChart
      = some (trivialPrepared, emptyChart) ∧
    emptyChart.x_range = trivialPrepared.x_range ∧
    emptyChart.legends = emptyChart.legends ++ trivialPrepared._legends := by
  have hcreate : Builder.create id some (fun b => (b, [])) (Builder.init none) emptyChart
      = some (trivialPrepared, emptyChart) := by decide
  have h := create_first_writer_wins id some (fun b => (b, []))
    (Builder.init none) trivialPrepared emptyChart emptyChart hcreate
  exact ⟨rfl, hcreate, h.1 rfl, h.2.2.2.2.1⟩

/-! ### Field-level shape of a full concrete-builder `create` -/

/-- A successful `prepare_values`, eliminated into the adapter result. -/
theorem prepare_values_elim (b bp : BuilderState)
    (h : Builder.prepare_values b = some bp) :
    ∃ idx s, DataAdapter.get_index_and_data b._values b.index = some (idx, s) ∧
      bp = { b with _values_index := idx, _values := .adapted idx s } := by
  unfold Builder.prepare_values at h
  cases hg : DataAdapter.get_index_and_data b._values b.index with
  | none => rw [hg] at h; simp at h
  | some p =>
    obtain ⟨idx, s⟩ := p
    rw [hg] at h
    simp only [Option.some.injEq] at h
    exact ⟨idx, s, rfl, h.symm⟩

/-- Already-adapted values pass through the adapter unchanged, whatever the
index specifier. -/
theorem get_index_and_data_adapted (idx : List ℚ) (s : List (String × List (ℚ × ℚ)))
    (ix : IndexSpec) :
    DataAdapter.get_index_and_data (.adapted idx s) ix = some (idx, s) := by
  cases ix <;> rfl

/-- The `_groups` contribution of one `LineBuilder.get_data` run over adapted
series `s`. -/
def lineGroupsF (ix : IndexSpec) (s : List (String × List (ℚ × ℚ))) : List String :=
  (s.filter (fun p => !(indexMatches ix p.1))).map Prod.fst

/-- The `_attr` list produced by one `LineBuilder.get_data` run. -/
def lineAttrF (ix : IndexSpec) (s : List (String × List (ℚ × ℚ))) : List String :=
  "x" :: (s.filter (fun p => !(indexMatches ix p.1))).map (fun p => "y_" ++ p.1)

/-- The `_data` dict produced by one `LineBuilder.get_data` run. -/
def lineDataF (ix : IndexSpec) (idx : List ℚ) (s : List (String × List (ℚ × ℚ))) :
    List (String × List ℚ) :=
  ((s.filter (fun p => !(indexMatches ix p.1))).map
      (fun p => ("y_" ++ p.1, idx.map (keyLookup p.2)))).foldl
    (fun d e => dictInsert d e.1 e.2) [("x", idx)]

/-- The `_attr` list produced by one `StepBuilder.get_data` run. -/
def stepAttrF (ix : IndexSpec) (s : List (String × List (ℚ × ℚ))) : List String :=
  "x" :: "x2" ::
    (s.filter (fun p => !(indexMatches ix p.1))).flatMap
      (fun p => ["y1_" ++ p.1, "y2_" ++ p.1])

/-- The `_data` dict produced by one `StepBuilder.get_data` run. -/
def stepDataF (ix : IndexSpec) (idx : List ℚ) (s : List (String × List (ℚ × ℚ))) :
    List (String × List ℚ) :=
  ((s.filter (fun p => !(indexMatches ix p.1))).flatMap
      (fun p => [("y1_" ++ p.1, (idx.map (keyLookup p.2)).dropLast),
                 ("y2_" ++ p.1, (idx.map (keyLookup p.2)).drop 1)])).foldl
    (fun d e => dictInsert d e.1 e.2)
    [("x", idx.dropLast), ("x2", idx.drop 1)]

/-- All builder-state fields after one successful `LineBuilder.create`, as
functions of the initial `index`, `_values` and `_groups` only. -/
theorem line_create_fields (b b' : BuilderState) (c c' : Chart)
    (h : LineBuilder.create b c = some (b', c')) :
    ∃ idx s yr,
      DataAdapter.get_index_and_data b._values b.index = some (idx, s) ∧
      yRangeOf (lineDataF b.index idx s) ((lineAttrF b.index s).drop 1) = some yr ∧
      b'.index = b.index ∧ b'._values = .adapted idx s ∧ b'._values_index = idx ∧
      b'._data = lineDataF b.index idx s ∧ b'._attr = lineAttrF b.index s ∧
      b'._groups = b._groups ++ lineGroupsF b.index s ∧
      b'._source = some (lineDataF b.index idx s) ∧
      b'.x_range = some (.dataRange1d ["x"]) ∧ b'.y_range = some yr := by
  unfold LineBuilder.create at h
  obtain ⟨bp, bs, hp, hgs, hb, -⟩ :=
    create_some_elim LineBuilder.get_data LineBuilder.get_source LineBuilder.draw b c b' c' h
  obtain ⟨idx, s, hg, hbp⟩ := prepare_values_elim b bp hp
  subst hbp
  rw [line_get_data_eq] at hgs
  obtain ⟨yr, hyr, hbs⟩ := line_get_source_some _ bs hgs
  subst hbs
  rw [line_draw_eq] at hb
  subst hb
  exact ⟨idx, s, yr, hg, hyr, rfl, rfl, rfl, rfl, rfl, rfl, rfl, rfl, rfl⟩

/-- All builder-state fields after one successful `StepBuilder.create`, as
functions of the initial `index` and `_values` only (`_groups` is reset). -/
theorem step_create_fields (b b' : BuilderState) (c c' : Chart)
    (h : StepBuilder.create b c = some (b', c')) :
    ∃ idx s yr,
      DataAdapter.get_index_and_data b._values b.index = some (idx, s) ∧
      yRangeOf (stepDataF b.index idx s) ((stepAttrF b.index s).drop 1) = some yr ∧
      b'.index = b.index ∧ b'._values = .adapted idx s ∧ b'._values_index = idx ∧
      b'._data = stepDataF b.index idx s ∧ b'._attr = stepAttrF b.index s ∧
      b'._groups = lineGroupsF b.index s ∧
      b'._source = some (stepDataF b.index idx s) ∧
      b'.x_range = some (.dataRange1d ["x", "x2"]) ∧ b'.y_range = some yr := by
  unfold StepBuilder.create at h
  obtain ⟨bp, bs, hp, hgs, hb, -⟩ :=
    create_some_elim StepBuilder.get_data StepBuilder.get_source StepBuilder.draw b c b' c' h
  obtain ⟨idx, s, hg, hbp⟩ := prepare_values_elim b bp hp
  subst hbp
  rw [step_get_data_eq] at hgs
  obtain ⟨yr, hyr, hbs⟩ := step_get_source_some _ bs hgs
  subst hbs
  rw [step_draw_eq] at hb
  subst hb
  exact ⟨idx, s, yr, hg, hyr, rfl, rfl, rfl, rfl, rfl, rfl, rfl, rfl, rfl⟩

/-- C2 (amended): each `create()` recomputes `_data`, `_attr` and both ranges
fresh — a second `create()` on the same instance reproduces the first run's
values for them — and `StepBuilder` also recomputes `_groups` fresh; the
accumulation of `_legends` (both builders) and of `LineBuilder`'s `_groups`
is exhibited by the counterexample. -/
theorem create_second_run_matches_first :
    (∀ (vs : List (String × List ℚ)) (ix : IndexSpec) (c c2 : Chart)
       (b1 b2 : BuilderState) (c1 c2' : Chart),
       LineBuilder.create (mkBuilder vs ix) c = some (b1, c1) →
       LineBuilder.create b1 c2 = some (b2, c2') →
       b2._data = b1._data ∧ b2._attr = b1._attr ∧
       b2.x_range = b1.x_range ∧ b2.y_range = b1.y_range) ∧
    (∀ (vs : List (String × List ℚ)) (ix : IndexSpec) (c c2 : Chart)
       (b1 b2 : BuilderState) (c1 c2' : Chart),
       StepBuilder.create (mkBuilder vs ix) c = some (b1, c1) →
       StepBuilder.create b1 c2 = some (b2, c2') →
       b2._data = b1._data ∧ b2._attr = b1._attr ∧ b2._groups = b1._groups ∧
       b2.x_range = b1.x_range ∧ b2.y_range = b1.y_range) := by
  constructor
  · intro vs ix c c2 b1 b2 c1 c2' h1 h2
    obtain ⟨idx, s, yr, hg, hyr, hix, hvals, hvi, hdata, hattr, hgroups, hsrc, hx, hy⟩ :=
      line_create_fields _ _ _ _ h1
    obtain ⟨idx2, s2, yr2, hg2, hyr2, hix2, hvals2, hvi2, hdata2, hattr2, hgroups2, hsrc2,
      hx2, hy2⟩ := line_create_fields _ _ _ _ h2
    rw [hvals, get_index_and_data_adapted] at hg2
    simp only [Option.some.injEq, Prod.mk.injEq] at hg2
    obtain ⟨hg2a, hg2b⟩ := hg2
    subst hg2a
    subst hg2b
    have hpre : (mkBuilder vs ix).index = ix := rfl
    rw [hpre] at hyr hix hdata hattr
    rw [hix] at hyr2 hdata2 hattr2
    refine ⟨?_, ?_, ?_, ?_⟩
    · rw [hdata2, hdata]
    · rw [hattr2, hattr]
    · rw [hx2, hx]
    · rw [hy2, hy]
      rw [hyr] at hyr2
      simp only [Option.some.injEq] at hyr2
      rw [hyr2]
  · intro vs ix c c2 b1 b2 c1 c2' h1 h2
    obtain ⟨idx, s, yr, hg, hyr, hix, hvals, hvi, hdata, hattr, hgroups, hsrc, hx, hy⟩ :=
      step_create_fields _ _ _ _ h1
    obtain ⟨idx2, s2, yr2, hg2, hyr2, hix2, hvals2, hvi2, hdata2, hattr2, hgroups2, hsrc2,
      hx2, hy2⟩ := step_create_fields _ _ _ _ h2
    rw [hvals, get_index_and_data_adapted] at hg2
    simp only [Option.some.injEq, Prod.mk.injEq] at hg2
    obtain ⟨hg2a, hg2b⟩ := hg2
    subst hg2a
    subst hg2b
    have hpre : (mkBuilder vs ix).index = ix := rfl
    rw [hpre] at hyr hix hdata hattr hgroups
    rw [hix] at hyr2 hdata2 hattr2 hgroups2
    refine ⟨?_, ?_, ?_, ?_, ?_⟩
    · rw [hdata2, hdata]
    · rw [hattr2, hattr]
    · rw [hgroups2, hgroups]
    · rw [hx2, hx]
    · rw [hy2, hy]
      rw [hyr] at hyr2
      simp only [Option.some.injEq] at hyr2
      rw [hyr2]

section SecondRunWitness

attribute [local semireducible] Rat.mul Rat.add Rat.sub Rat.inv Rat.ofScientific

/-- The `ColumnDataSource` columns of the Line witness run. -/
def lineSrc : List (String × List ℚ) := [("x", [0, 1]), ("y_a", [1, 2])]

/-- The single renderer of the Line witness run. -/
def lineR : GlyphRenderer := { data_source := lineSrc, glyph := .line "x" "y_a" "#f22c40" }

/-- The builder state after the first Line `create()` of the witness run. -/
def lineFirstRun : BuilderState :=
  { index := .seq [0, 1]
    _values := .adapted [0, 1] [("a", [(0, 1), (1, 2)])]
    _values_index := [0, 1]
    _legends := [("a", [lineR])]
    _data := lineSrc
    _groups := ["a"]
    _attr := ["x", "y_a"]
    _source := some lineSrc
    x_range := some (.dataRange1d ["x"])
    y_range := some (.range1d (9 / 10) (21 / 10)) }

/-- The chart returned by the first Line `create()` of the witness run. -/
def lineFirstChart : Chart :=
  { renderers := [lineR], x_range := some (.dataRange1d ["x"])
    y_range := some (.range1d (9 / 10) (21 / 10)), legends := [("a", [lineR])] }

/-- The builder state after the second Line `create()` of the witness run:
`_data`, `_attr` and ranges repeat, `_groups` and `_legends` accumulate. -/
def lineSecondRun : BuilderState :=
  { lineFirstRun with _legends := [("a", [lineR]), ("a", [lineR])], _groups := ["a", "a"] }

/-- The chart returned by the second Line `create()` of the witness run. -/
def lineSecondChart : Chart :=
  { lineFirstChart with legends := [("a", [lineR]), ("a", [lineR])] }

/-- The `ColumnDataSource` columns of the Step witness run. -/
def stepSrc : List (String × List ℚ) :=
  [("x", [0]), ("x2", [1]), ("y1_a", [1]), ("y2_a", [2])]

/-- The first (horizontal) segment renderer of the Step witness run. -/
def stepR1 : GlyphRenderer :=
  { data_source := stepSrc, glyph := .segment "x2" "y1_a" "x2" "y2_a" "#f22c40" }

/-- The second (vertical) segment renderer of the Step witness run. -/
def stepR2 : GlyphRenderer :=
  { data_source := stepSrc, glyph := .segment "x" "y1_a" "x2" "y1_a" "#f22c40" }

/-- The builder state after the first Step `create()` of the witness run. -/
def stepFirstRun : BuilderState :=
  { index := .seq [0, 1]
    _values := .adapted [0, 1] [("a", [(0, 1), (1, 2)])]
    _values_index := [0, 1]
    _legends := [("a", [stepR2])]
    _data := stepSrc
    _groups := ["a"]
    _attr := ["x", "x2", "y1_a", "y2_a"]
    _source := some stepSrc
    x_range := some (.dataRange1d ["x", "x2"])
    y_range := some (.range1d (9 / 10) (21 / 10)) }

/-- The chart returned by the first Step `create()` of the witness run. -/
def stepFirstChart : Chart :=
  { renderers := [stepR1, stepR2], x_range := some (.dataRange1d ["x", "x2"])
    y_range := some (.range1d (9 / 10) (21 / 10)), legends := [("a", [stepR2])] }

/-- The builder state after the second Step `create()` of the witness run:
only `_legends` accumulates. -/
def stepSecondRun : BuilderState :=
  { stepFirstRun with _legends := [("a", [stepR2]), ("a", [stepR2])] }

/-- The chart returned by the second Step `create()` of the witness run. -/
def stepSecondChart : Chart :=
  { stepFirstChart with legends := [("a", [stepR2]), ("a", [stepR2])] }

/-- Witness for the C2 theorem: on the concrete double runs, the second run
reproduces the first run's `_data` and `y_range` (Line) and `_data` and
`_groups` (Step). -/
theorem create_second_run_matches_first_witness :
    lineSecondRun._data = lineFirstRun._data ∧
    lineSecondRun.y_range = lineFirstRun.y_range ∧
    stepSecondRun._data = stepFirstRun._data ∧
    stepSecondRun._groups = stepFirstRun._groups := by
  have h1 : LineBuilder.create (mkBuilder smallValues (.seq [0, 1])) emptyChart
      = some (lineFirstRun, lineFirstChart) := by decide
  have h2 : LineBuilder.create lineFirstRun emptyChart
      = some (lineSecondRun, lineSecondChart) := by decide
  have h3 : StepBuilder.create (mkBuilder smallValues (.seq [0, 1])) emptyChart
      = some (stepFirstRun, stepFirstChart) := by decide
  have h4 : StepBuilder.create stepFirstRun emptyChart
      = some (stepSecondRun, stepSecondChart) := by decide
  have hL := create_second_run_matches_first.1 smallValues (.seq [0, 1]) emptyChart emptyChart
    lineFirstRun lineSecondRun lineFirstChart lineSecondChart h1 h2
  have hS := create_second_run_matches_first.2 smallValues (.seq [0, 1]) emptyChart emptyChart
    stepFirstRun stepSecondRun stepFirstChart stepSecondChart h3 h4
  exact ⟨hL.1, hL.2.2.2, hS.1, hS.2.2.1⟩

end SecondRunWitness

/-- C9: the keyword split of `create_and_build` forwards every option to
exactly one receiver — to the builder iff its name is among the builder
class's declared property names, otherwise to the chart — and the names
`legend` and `palette` are not declared builder properties (the palette
property is misspelled `alette`), so the rule routes them to the chart. -/
theorem create_and_build_routes_each_option (props : List String)
    (kws : List (String × String)) (k v : String) (hmem : (k, v) ∈ kws) :
    ((k, v) ∈ (create_and_build_kws props kws).1 ↔ props.contains k = true) ∧
    ((k, v) ∈ (create_and_build_kws props kws).2 ↔ ¬ props.contains k = true) ∧
    ¬((k, v) ∈ (create_and_build_kws props kws).1 ∧
      (k, v) ∈ (create_and_build_kws props kws).2) ∧
    LineBuilder.propNames.contains "legend" = false ∧
    LineBuilder.propNames.contains "palette" = false := by
  unfold create_and_build_kws
  refine ⟨?_, ?_, ?_, by decide, by decide⟩
  · simp [List.mem_filter, hmem]
  · simp [List.mem_filter, hmem]
  · rintro ⟨hA, hB⟩
    simp only [List.mem_filter] at hA hB
    rcases hA with ⟨-, hA⟩
    rcases hB with ⟨-, hB⟩
    simp at hA hB
    exact hB hA

/-- Witness for the C9 theorem: with `LineBuilder`'s declared properties,
`legend` is routed to the chart side and `index` to the builder side. -/
theorem create_and_build_routes_each_option_witness :
    ("legend", "top_left") ∈ (create_and_build_kws LineBuilder.propNames
        [("legend", "top_left"), ("index", "x")]).2 ∧
    ("index", "x") ∈ (create_and_build_kws LineBuilder.propNames
        [("legend", "top_left"), ("index", "x")]).1 := by
  have h1 := create_and_build_routes_each_option LineBuilder.propNames
    [("legend", "top_left"), ("index", "x")] "legend" "top_left" (by decide)
  have h2 := create_and_build_routes_each_option LineBuilder.propNames
    [("legend", "top_left"), ("index", "x")] "index" "x" (by decide)
  exact ⟨h1.2.1.mpr (by decide), h2.1.mpr (by decide)⟩

/-! ### String-key and list helper lemmas -/

/-- Left-cancellation of string append. -/
theorem string_append_left_cancel {pre a b : String} (h : pre ++ a = pre ++ b) : a = b := by
  apply String.ext
  have hd := congrArg String.data h
  simp only [String.data_append] at hd
  exact List.append_cancel_left hd

/-- Appends with equal-length distinct prefixes are distinct strings. -/
theorem string_append_ne_of_ne {p q : String} (a b : String)
    (hlen : p.length = q.length) (hne : p ≠ q) : p ++ a ≠ q ++ b := by
  intro h
  apply hne
  apply String.ext
  have hd := congrArg String.data h
  simp only [String.data_append] at hd
  exact (List.append_inj hd hlen).1

/-- Strings of different lengths are distinct. -/
theorem string_ne_of_length_ne {s t : String} (h : s.length ≠ t.length) : s ≠ t := by
  intro he
  exact h (he ▸ rfl)

/-- Inserting a fresh key appends the entry. -/
theorem dictInsert_fresh {α : Type} (d : List (String × α)) (k : String) (v : α)
    (h : ∀ q ∈ d, q.1 ≠ k) : dictInsert d k v = d ++ [(k, v)] := by
  unfold dictInsert
  rw [if_neg]
  intro hany
  simp only [List.any_eq_true] at hany
  obtain ⟨p, hp, hpk⟩ := hany
  exact h p hp (eq_of_beq hpk)

/-- Folding fresh, pairwise-distinct insertions over a dict appends them all
in order. -/
theorem foldl_dictInsert_fresh {α : Type} :
    ∀ (entries : List (String × α)) (d : List (String × α)),
    (∀ e ∈ entries, ∀ q ∈ d, q.1 ≠ e.1) → (entries.map Prod.fst).Nodup →
    entries.foldl (fun d e => dictInsert d e.1 e.2) d = d ++ entries := by
  intro entries
  induction entries with
  | nil => intro d _ _; simp
  | cons e es ih =>
    intro d hfresh hnd
    simp only [List.map_cons, List.nodup_cons] at hnd
    simp only [List.foldl_cons]
    rw [dictInsert_fresh d e.1 e.2 (fun q hq => hfresh e (by simp) q hq)]
    rw [ih (d ++ [e]) ?_ hnd.2]
    · simp
    · intro e' he' q hq
      rcases List.mem_append.mp hq with hq | hq
      · exact hfresh e' (by simp [he']) q hq
      · simp only [List.mem_singleton] at hq
        subst hq
        intro hcontra
        exact hnd.1 (hcontra ▸ List.mem_map_of_mem Prod.fst he')

/-- By-key access of a series zipped with a duplicate-free index, mapped back
over the index, recovers the aligned values. -/
theorem map_keyLookup_zip :
    ∀ (xs v : List ℚ), xs.Nodup → v.length = xs.length →
    xs.map (keyLookup (xs.zip v)) = v := by
  intro xs
  induction xs with
  | nil =>
    intro v _ hlen
    cases v with
    | nil => rfl
    | cons v0 v => simp at hlen
  | cons x xs ih =>
    intro v hnd hlen
    cases v with
    | nil => simp at hlen
    | cons v0 v =>
      simp only [List.nodup_cons] at hnd
      simp only [List.length_cons] at hlen
      simp only [List.zip_cons_cons, List.map_cons]
      have hhead : keyLookup ((x, v0) :: xs.zip v) x = v0 := by
        unfold keyLookup
        rw [List.find?_cons_of_pos _ (by simp)]
        rfl
      have htail : xs.map (keyLookup ((x, v0) :: xs.zip v)) = xs.map (keyLookup (xs.zip v)) := by
        apply List.map_congr_left
        intro a ha
        unfold keyLookup
        rw [List.find?_cons_of_neg (p := fun r : ℚ × ℚ => r.1 == a) _ ?_]
        intro hba
        have hxa : x = a := eq_of_beq hba
        exact hnd.1 (hxa ▸ ha)
      rw [hhead, htail, ih v hnd.2 (by omega)]

/-- A key with a long prefix differs from any shorter literal key. -/
theorem long_pre_key_ne (pre s t : String) (h : t.length < pre.length) :
    pre ++ s ≠ t := by
  apply string_ne_of_length_ne
  simp only [String.length_append]
  omega

/-- The interleaved `"y1_"`/`"y2_"` keys generated from distinct series
names are pairwise distinct. -/
theorem step_keys_nodup :
    ∀ (vs : List (String × List ℚ)), (vs.map Prod.fst).Nodup →
    (vs.flatMap (fun p => ["y1_" ++ p.1, "y2_" ++ p.1])).Nodup := by
  intro vs
  induction vs with
  | nil => intro _; simp
  | cons p vs ih =>
    intro hnd
    simp only [List.map_cons, List.nodup_cons] at hnd
    simp only [List.flatMap_cons, List.cons_append, List.nil_append]
    rw [List.nodup_cons, List.nodup_cons]
    refine ⟨?_, ?_, ih hnd.2⟩
    · intro hmem
      rcases List.mem_cons.mp hmem with h | h
      · exact string_append_ne_of_ne _ _ (by decide) (by decide) h
      · rcases List.mem_flatMap.mp h with ⟨q, hq, hmem2⟩
        have hne : p.1 ≠ q.1 := fun he => hnd.1 (he ▸ List.mem_map_of_mem Prod.fst hq)
        rcases List.mem_cons.mp hmem2 with h2 | h2
        · exact hne (string_append_left_cancel h2)
        · simp only [List.mem_singleton] at h2
          exact string_append_ne_of_ne _ _ (by decide) (by decide) h2
    · intro hmem
      rcases List.mem_flatMap.mp hmem with ⟨q, hq, hmem2⟩
      have hne : p.1 ≠ q.1 := fun he => hnd.1 (he ▸ List.mem_map_of_mem Prod.fst hq)
      rcases List.mem_cons.mp hmem2 with h2 | h2
      · exact string_append_ne_of_ne _ _ (by decide) (by decide) h2
      · simp only [List.mem_singleton] at h2
        exact hne (string_append_left_cancel h2)

/-- Pointwise-equal functions give equal `flatMap`s. -/
theorem flatMap_congr {α β : Type} {l : List α} {f g : α → List β}
    (h : ∀ a ∈ l, f a = g a) : l.flatMap f = l.flatMap g := by
  induction l with
  | nil => rfl
  | cons a l ih =>
    simp only [List.flatMap_cons]
    rw [h a (by simp), ih (fun a ha => h a (by simp [ha]))]

/-- The chunk worker ignores the exact fuel as long as it covers the list. -/
theorem chunkAux_fuel_eq {α : Type} (n : Nat) :
    ∀ (fuel fuel' : Nat) (l : List α), l.length ≤ fuel → l.length ≤ fuel' →
    chunkAux n fuel l = chunkAux n fuel' l := by
  intro fuel
  induction fuel with
  | zero =>
    intro fuel' l h h'
    cases l with
    | nil => cases fuel' <;> rfl
    | cons x xs => simp at h
  | succ fuel ih =>
    intro fuel' l h h'
    cases l with
    | nil => cases fuel' <;> rfl
    | cons x xs =>
      cases fuel' with
      | zero => simp at h'
      | succ fuel' =>
        simp only [chunkAux]
        congr 1
        apply ih
        · simp only [List.length_drop]
          simp only [List.length_cons] at h
          omega
        · simp only [List.length_drop]
          simp only [List.length_cons] at h'
          omega

/-- Chunking by two peels off the first two elements. -/
theorem chunk_two_cons₂ {α : Type} (a b : α) (l : List α) :
    chunk 2 (a :: b :: l) = [a, b] :: chunk 2 l := by
  have h1 : chunk 2 (a :: b :: l) = [a, b] :: chunkAux 2 (l.length + 1) l := rfl
  rw [h1]
  unfold chunk
  rw [chunkAux_fuel_eq 2 (l.length + 1) l.length l (by omega) (by omega)]

/-- Chunking an interleaved two-per-element list by two recovers the pairs. -/
theorem chunk_two_flatMap_pairs {α β : Type} (f g : α → β) :
    ∀ (l : List α), chunk 2 (l.flatMap (fun x => [f x, g x])) = l.map (fun x => [f x, g x]) := by
  intro l
  induction l with
  | nil => rfl
  | cons x l ih =>
    simp only [List.flatMap_cons, List.cons_append, List.nil_append, List.map_cons]
    rw [chunk_two_cons₂, ih]

/-- An interleaved two-per-element list has twice the length. -/
theorem length_flatMap_pair {α β : Type} (f g : α → β) :
    ∀ (l : List α), (l.flatMap (fun x => [f x, g x])).length = 2 * l.length := by
  intro l
  induction l with
  | nil => rfl
  | cons x l ih =>
    simp only [List.flatMap_cons, List.cons_append, List.nil_append, List.length_cons, ih]
    omega

/-- The odd positions of an interleaved two-per-element list are the second
components. -/
theorem flatMap_pair_get_odd {α β : Type} (f g : α → β) :
    ∀ (l : List α) (i : Nat),
    (l.flatMap (fun x => [f x, g x])).get? (2 * i + 1) = (l.get? i).map g := by
  intro l
  induction l with
  | nil => intro i; rfl
  | cons x l ih =>
    intro i
    cases i with
    | zero => rfl
    | succ i =>
      have harith : 2 * (i + 1) + 1 = (2 * i + 1) + 1 + 1 := by omega
      rw [harith]
      simp only [List.flatMap_cons, List.cons_append, List.nil_append, List.get?_cons_succ]
      exact ih i

/-- Mapping a function of the indices over an enumeration is mapping it over
the index range. -/
theorem enumFrom_map_fst_fun {β γ : Type} (f : Nat → γ) :
    ∀ (l : List β) (n : Nat),
    (List.enumFrom n l).map (fun p => f p.1) = (List.range l.length).map (fun i => f (n + i)) := by
  intro l
  induction l with
  | nil => intro n; rfl
  | cons b l ih =>
    intro n
    have hE : List.enumFrom n (b :: l) = (n, b) :: List.enumFrom (n + 1) l := rfl
    rw [hE]
    simp only [List.map_cons, List.length_cons, List.range_succ_eq_map, List.map_map]
    refine congrArg₂ List.cons (by simp) ?_
    rw [ih]
    apply List.map_congr_left
    intro i _
    exact congrArg f (by omega)

/-- Reading a list back through `getD` over its index range recovers it. -/
theorem getD_range_self {γ : Type} (dflt : γ) :
    ∀ (g : List γ), (List.range g.length).map (fun i => g.getD i dflt) = g := by
  intro g
  induction g with
  | nil => rfl
  | cons a g ih =>
    simp only [List.length_cons, List.range_succ_eq_map, List.map_cons, List.map_map]
    refine congrArg₂ List.cons rfl ?_
    have hcong : (List.range g.length).map ((fun i => (a :: g).getD i dflt) ∘ Nat.succ)
        = (List.range g.length).map (fun i => g.getD i dflt) :=
      List.map_congr_left (fun i _ => rfl)
    rw [hcong, ih]

/-- C5: on an input with index sequence `I` and non-index series aligned to
`I` (distinct names, lengths matching a duplicate-free index),
`StepBuilder.get_data` produces exactly the columns `x = I[:-1]`,
`x2 = I[1:]` and, per series `s` with values `v`, `y1_s = v[:-1]` and
`y2_s = v[1:]`, in that creation order. -/
theorem step_get_data_columns (I : List ℚ) (vs : List (String × List ℚ))
    (hI : I.Nodup) (hnd : (vs.map Prod.fst).Nodup)
    (hlen : ∀ p ∈ vs, (p.2 : List ℚ).length = I.length) :
    (Builder.prepare_values (mkBuilder vs (.seq I))).map
        (fun bp => ((StepBuilder.get_data bp)._data, (StepBuilder.get_data bp)._attr))
      = some
        (("x", I.dropLast) :: ("x2", I.drop 1) ::
           vs.flatMap (fun p => [("y1_" ++ p.1, p.2.dropLast), ("y2_" ++ p.1, p.2.drop 1)]),
         "x" :: "x2" :: vs.flatMap (fun p => ["y1_" ++ p.1, "y2_" ++ p.1])) := by
  have hp : Builder.prepare_values (mkBuilder vs (.seq I))
      = some { mkBuilder vs (.seq I) with
               _values_index := I
               _values := .adapted I (vs.map (fun p => (p.1, I.zip p.2))) } := rfl
  rw [hp, Option.map_some']
  rw [step_get_data_eq]
  dsimp only
  have hix : (mkBuilder vs (IndexSpec.seq I)).index = IndexSpec.seq I := rfl
  simp only [ySeries, ValuesRep.seriesOf, hix, indexMatches, Bool.not_false, List.filter_true]
  have hflat : (vs.map (fun p => (p.1, I.zip p.2))).flatMap
      (fun p => [("y1_" ++ p.1, (I.map (keyLookup p.2)).dropLast),
                 ("y2_" ++ p.1, (I.map (keyLookup p.2)).drop 1)])
      = vs.flatMap (fun p => [("y1_" ++ p.1, p.2.dropLast), ("y2_" ++ p.1, p.2.drop 1)]) := by
    rw [List.flatMap_map]
    apply flatMap_congr
    intro p hpv
    rw [map_keyLookup_zip I p.2 hI (hlen p hpv)]
  have hkeys : (vs.flatMap
        (fun p => [("y1_" ++ p.1, p.2.dropLast), ("y2_" ++ p.1, p.2.drop 1)])).map Prod.fst
      = vs.flatMap (fun p => ["y1_" ++ p.1, "y2_" ++ p.1]) := by
    rw [List.map_flatMap]
    rfl
  have hfresh : ∀ e ∈ vs.flatMap
      (fun p => [("y1_" ++ p.1, p.2.dropLast), ("y2_" ++ p.1, p.2.drop 1)]),
      ∀ q ∈ ([("x", I.dropLast), ("x2", I.drop 1)] : List (String × List ℚ)), q.1 ≠ e.1 := by
    intro e he q hq
    rcases List.mem_flatMap.mp he with ⟨p, hpv, hmem⟩
    have he1 : e.1 = "y1_" ++ p.1 ∨ e.1 = "y2_" ++ p.1 := by
      rcases List.mem_cons.mp hmem with h2 | h2
      · exact Or.inl (by rw [h2])
      · simp only [List.mem_singleton] at h2
        exact Or.inr (by rw [h2])
    have hq1 : q.1 = "x" ∨ q.1 = "x2" := by
      rcases List.mem_cons.mp hq with h2 | h2
      · exact Or.inl (by rw [h2])
      · simp only [List.mem_singleton] at h2
        exact Or.inr (by rw [h2])
    rcases he1 with he1 | he1 <;> rcases hq1 with hq1 | hq1 <;> rw [he1, hq1] <;>
      exact Ne.symm (long_pre_key_ne _ _ _ (by decide))
  have hknd : ((vs.flatMap
      (fun p => [("y1_" ++ p.1, p.2.dropLast), ("y2_" ++ p.1, p.2.drop 1)])).map Prod.fst).Nodup := by
    rw [hkeys]
    exact step_keys_nodup vs hnd
  rw [hflat, foldl_dictInsert_fresh _ _ hfresh hknd, List.flatMap_map]
  rfl

/-- Witness for the C5 theorem: the spec's Step example input produces
x=[1,2], x2=[2,3], y1_a=[1,4], y2_a=[4,9], y1_b=[2,3], y2_b=[3,5], in that
creation order. -/
theorem step_get_data_columns_witness :
    (Builder.prepare_values
        (mkBuilder [("a", [1, 4, 9]), ("b", [2, 3, 5])] (.seq [1, 2, 3]))).map
        (fun bp => ((StepBuilder.get_data bp)._data, (StepBuilder.get_data bp)._attr))
      = some
        ([("x", [1, 2]), ("x2", [2, 3]), ("y1_a", [1, 4]), ("y2_a", [4, 9]),
          ("y1_b", [2, 3]), ("y2_b", [3, 5])],
         ["x", "x2", "y1_a", "y2_a", "y1_b", "y2_b"]) := by
  have h := step_get_data_columns [1, 2, 3] [("a", [1, 4, 9]), ("b", [2, 3, 5])]
    (by decide) (by decide) (by decide)
  exact h.trans (by decide)

/-- The adapted series keep exactly the input's non-index series, so their
skip-filter count equals the input's non-index series count. -/
theorem prepared_filter_length (vs : List (String × List ℚ)) (ix : IndexSpec)
    (idx : List ℚ) (s : List (String × List (ℚ × ℚ)))
    (h : DataAdapter.get_index_and_data (.raw vs) ix = some (idx, s)) :
    (s.filter (fun p => !(indexMatches ix p.1))).length
      = (vs.filter (fun p => !(indexMatches ix p.1))).length := by
  cases ix with
  | noneSpec =>
    unfold DataAdapter.get_index_and_data at h
    simp only [Option.some.injEq, Prod.mk.injEq] at h
    rw [← h.2]
    rw [List.filter_map]
    simp only [List.length_map]
    apply congrArg List.length
    apply List.filter_congr
    intro p _
    rfl
  | seq l =>
    unfold DataAdapter.get_index_and_data at h
    simp only [Option.some.injEq, Prod.mk.injEq] at h
    rw [← h.2]
    rw [List.filter_map]
    simp only [List.length_map]
    apply congrArg List.length
    apply List.filter_congr
    intro p _
    rfl
  | col c =>
    unfold DataAdapter.get_index_and_data at h
    dsimp only at h
    cases hg : dictGet vs c with
    | none => rw [hg] at h; simp at h
    | some xs =>
      rw [hg] at h
      simp only [Option.some.injEq, Prod.mk.injEq] at h
      rw [← h.2]
      rw [List.filter_map]
      simp only [List.length_map]
      rw [List.filter_filter]
      apply congrArg List.length
      apply List.filter_congr
      intro p _
      simp [indexMatches]

/-- The even positions of an interleaved two-per-element list are the first
components. -/
theorem flatMap_pair_get_even {α β : Type} (f g : α → β) :
    ∀ (l : List α) (i : Nat),
    (l.flatMap (fun x => [f x, g x])).get? (2 * i) = (l.get? i).map f := by
  intro l
  induction l with
  | nil => intro i; rfl
  | cons x l ih =>
    intro i
    cases i with
    | zero => rfl
    | succ i =>
      have harith : 2 * (i + 1) = 2 * i + 1 + 1 := by omega
      rw [harith]
      simp only [List.flatMap_cons, List.cons_append, List.nil_append, List.get?_cons_succ]
      exact ih i

/-- Mapping the names out of a name-preserving series transformation commutes
with a name-keyed filter. -/
theorem map_fst_filter_zipped (vs : List (String × List ℚ)) (pred : String → Bool)
    (F : String × List ℚ → List (ℚ × ℚ)) :
    ((vs.map (fun p => (p.1, F p))).filter (fun q => pred q.1)).map Prod.fst
      = (vs.filter (fun q => pred q.1)).map Prod.fst := by
  rw [List.filter_map, List.map_map]
  have hA : vs.filter ((fun q : String × List (ℚ × ℚ) => pred q.1) ∘ (fun p => (p.1, F p)))
      = vs.filter (fun q => pred q.1) := List.filter_congr (fun p _ => rfl)
  rw [hA]
  exact List.map_congr_left (fun p _ => rfl)

/-- The adapted series keep exactly the input's non-index series names, in
input order. -/
theorem prepared_filter_names (vs : List (String × List ℚ)) (ix : IndexSpec)
    (idx : List ℚ) (s : List (String × List (ℚ × ℚ)))
    (h : DataAdapter.get_index_and_data (.raw vs) ix = some (idx, s)) :
    (s.filter (fun p => !(indexMatches ix p.1))).map Prod.fst
      = (vs.filter (fun p => !(indexMatches ix p.1))).map Prod.fst := by
  cases ix with
  | noneSpec =>
    unfold DataAdapter.get_index_and_data at h
    simp only [Option.some.injEq, Prod.mk.injEq] at h
    rw [← h.2]
    exact map_fst_filter_zipped vs (fun n => !(indexMatches IndexSpec.noneSpec n))
      (fun p => ((List.range ((vs.head?.map (fun p => p.2.length)).getD 0)).map
        (fun i => (i : ℚ))).zip p.2)
  | seq l =>
    unfold DataAdapter.get_index_and_data at h
    simp only [Option.some.injEq, Prod.mk.injEq] at h
    rw [← h.2]
    exact map_fst_filter_zipped vs (fun n => !(indexMatches (IndexSpec.seq l) n))
      (fun p => l.zip p.2)
  | col c =>
    unfold DataAdapter.get_index_and_data at h
    dsimp only at h
    cases hg2 : dictGet vs c with
    | none => rw [hg2] at h; simp at h
    | some xs =>
      rw [hg2] at h
      simp only [Option.some.injEq, Prod.mk.injEq] at h
      rw [← h.2]
      rw [map_fst_filter_zipped (vs.filter (fun p => !(p.1 == c)))
        (fun n => !(indexMatches (IndexSpec.col c) n)) (fun p => xs.zip p.2)]
      rw [List.filter_filter]
      have hA : vs.filter (fun a => (!(indexMatches (IndexSpec.col c) a.1)) && (!(a.1 == c)))
          = vs.filter (fun p => !(indexMatches (IndexSpec.col c) p.1)) :=
        List.filter_congr (fun p _ => by simp [indexMatches])
      rw [hA]

/-- C7: on a prepared valid input with k non-index series (and a y-range
computation that succeeds), `LineBuilder.draw` yields exactly k renderers and
`StepBuilder.draw` yields exactly 2*k renderers, emitted in series order:
the i-th Line renderer is the line glyph bound to `"y_" + name` of the i-th
non-index series, and the Step renderers at positions 2i and 2i+1 are the two
segment glyphs bound to `"y1_" + name`/`"y2_" + name` of the i-th non-index
series, drawn with one shared color and source per series. -/
theorem renderer_counts (vs : List (String × List ℚ)) (ix : IndexSpec)
    (bp bL bS : BuilderState)
    (hp : Builder.prepare_values (mkBuilder vs ix) = some bp)
    (hL : LineBuilder.get_source (LineBuilder.get_data bp) = some bL)
    (hS : StepBuilder.get_source (StepBuilder.get_data bp) = some bS) :
    (LineBuilder.draw bL).2.length = (vs.filter (fun p => !(indexMatches ix p.1))).length ∧
    (StepBuilder.draw bS).2.length
      = 2 * (vs.filter (fun p => !(indexMatches ix p.1))).length ∧
    (∀ i name,
      ((vs.filter (fun p => !(indexMatches ix p.1))).map Prod.fst).get? i = some name →
      (∃ src c, (LineBuilder.draw bL).2.get? i
          = some { data_source := src, glyph := .line "x" ("y_" ++ name) c }) ∧
      (∃ src c, (StepBuilder.draw bS).2.get? (2 * i)
            = some { data_source := src
                     glyph := .segment "x2" ("y1_" ++ name) "x2" ("y2_" ++ name) c } ∧
          (StepBuilder.draw bS).2.get? (2 * i + 1)
            = some { data_source := src
                     glyph := .segment "x" ("y1_" ++ name) "x2" ("y1_" ++ name) c })) := by
  obtain ⟨idx, s, hg, hbp⟩ := prepare_values_elim _ _ hp
  have hg' : DataAdapter.get_index_and_data (.raw vs) ix = some (idx, s) := hg
  have hflen := prepared_filter_length vs ix idx s hg'
  have hnames := prepared_filter_names vs ix idx s hg'
  have hix : (mkBuilder vs ix).index = ix := rfl
  subst hbp
  rw [line_get_data_eq] at hL
  obtain ⟨yrL, hyrL, hbsL⟩ := line_get_source_some _ _ hL
  subst hbsL
  rw [step_get_data_eq] at hS
  obtain ⟨yrS, hyrS, hbsS⟩ := step_get_source_some _ _ hS
  subst hbsS
  rw [line_draw_eq, step_draw_eq]
  dsimp only
  have hdrop1 : ∀ (a : String) (l : List String), List.drop 1 (a :: l) = l := fun a l => rfl
  have hdrop2 : ∀ (a b : String) (l : List String), List.drop 2 (a :: b :: l) = l :=
    fun a b l => rfl
  simp only [hdrop1, hdrop2, hix, ySeries, ValuesRep.seriesOf]
  rw [chunk_two_flatMap_pairs]
  refine ⟨?_, ?_, ?_⟩
  · simp only [List.length_map, List.enumFrom_length]
    exact hflen
  · rw [length_flatMap_pair]
    simp only [List.enum_length, List.length_map]
    omega
  · intro i name hname
    rw [← hnames, List.get?_map] at hname
    obtain ⟨p, hgp, hp1⟩ := Option.map_eq_some'.mp hname
    constructor
    · rw [List.get?_map, List.get?_enumFrom, List.get?_map, hgp]
      simp only [Option.map_some']
      rw [hp1]
      exact ⟨_, _, rfl⟩
    · rw [flatMap_pair_get_even, flatMap_pair_get_odd, List.get?_enum, List.get?_map, hgp]
      simp only [Option.map_some']
      rw [hp1]
      exact ⟨_, _, rfl, rfl⟩

/-- Legend names of the Line draw loop: reading the groups at positions
0..k-1 recovers the whole groups list. -/
theorem line_names_eq (groups names : List String)
    (h : names.length = groups.length) (F : Nat × String → List GlyphRenderer) :
    ((List.enumFrom 1 names).map
        (fun p => (groups.getD (p.1 - 1) "", F p))).map Prod.fst = groups := by
  rw [List.map_map]
  have hfun : (Prod.fst ∘ fun p => (groups.getD (p.1 - 1) "", F p))
      = fun p : Nat × String => groups.getD (p.1 - 1) "" := rfl
  rw [hfun]
  have he := enumFrom_map_fst_fun (fun n => groups.getD (n - 1) "") names 1
  simp only at he
  rw [he, h]
  have hc : (List.range groups.length).map (fun i => groups.getD (1 + i - 1) "")
      = (List.range groups.length).map (fun i => groups.getD i "") :=
    List.map_congr_left (fun i _ => by congr 1; omega)
  rw [hc, getD_range_self]

/-- Legend names of the Step draw loop: reading the groups at positions
0..k-1 recovers the whole groups list. -/
theorem step_names_eq (groups : List String) (tuples : List (List String))
    (h : tuples.length = groups.length) (F : Nat × List String → List GlyphRenderer) :
    ((tuples.enum).map (fun p => (groups.getD p.1 "", F p))).map Prod.fst = groups := by
  rw [List.map_map]
  have hfun : (Prod.fst ∘ fun p => (groups.getD p.1 "", F p))
      = fun p : Nat × List String => groups.getD p.1 "" := rfl
  rw [hfun]
  have he := enumFrom_map_fst_fun (fun n => groups.getD n "") tuples 0
  simp only at he
  rw [show tuples.enum = List.enumFrom 0 tuples from rfl, he, h]
  have hc : (List.range groups.length).map (fun i => groups.getD (0 + i) "")
      = (List.range groups.length).map (fun i => groups.getD i "") :=
    List.map_congr_left (fun i _ => by congr 1; omega)
  rw [hc, getD_range_self]

/-- C8: after a full pipeline run on a fresh builder, the series names of the
legend entries equal the `_groups` list exactly, for both builders, and each
Step legend entry's renderer list holds exactly the second of that series'
two emitted segment renderers. -/
theorem legend_order_matches_groups (vs : List (String × List ℚ)) (ix : IndexSpec)
    (bp bL bS : BuilderState)
    (hp : Builder.prepare_values (mkBuilder vs ix) = some bp)
    (hL : LineBuilder.get_source (LineBuilder.get_data bp) = some bL)
    (hS : StepBuilder.get_source (StepBuilder.get_data bp) = some bS) :
    ((LineBuilder.draw bL).1._legends.map Prod.fst = (LineBuilder.draw bL).1._groups) ∧
    ((StepBuilder.draw bS).1._legends.map Prod.fst = (StepBuilder.draw bS).1._groups) ∧
    (∀ i name rset r1 r2,
      (StepBuilder.draw bS).1._legends.get? i = some (name, rset) →
      (StepBuilder.draw bS).2.get? (2 * i) = some r1 →
      (StepBuilder.draw bS).2.get? (2 * i + 1) = some r2 →
      rset = [r2]) := by
  obtain ⟨idx, s, hg, hbp⟩ := prepare_values_elim _ _ hp
  subst hbp
  rw [line_get_data_eq] at hL
  obtain ⟨yrL, hyrL, hbsL⟩ := line_get_source_some _ _ hL
  subst hbsL
  rw [step_get_data_eq] at hS
  obtain ⟨yrS, hyrS, hbsS⟩ := step_get_source_some _ _ hS
  subst hbsS
  rw [line_draw_eq, step_draw_eq]
  dsimp only
  have hleg0 : (mkBuilder vs ix)._legends = ([] : List (String × List GlyphRenderer)) := rfl
  have hgrp0 : (mkBuilder vs ix)._groups = ([] : List String) := rfl
  have hdrop1 : ∀ (a : String) (l : List String), List.drop 1 (a :: l) = l := fun a l => rfl
  have hdrop2 : ∀ (a b : String) (l : List String), List.drop 2 (a :: b :: l) = l :=
    fun a b l => rfl
  simp only [hleg0, hgrp0, hdrop1, hdrop2, List.nil_append]
  refine ⟨?_, ?_, ?_⟩
  · exact line_names_eq _ _ (by simp) _
  · refine step_names_eq _ _ ?_ _
    rw [chunk_two_flatMap_pairs]
    simp
  · intro i name rset r1 r2 hleg hr1 hr2
    rw [List.get?_map] at hleg
    rw [flatMap_pair_get_odd] at hr2
    cases henum : (chunk 2 ((ySeries (mkBuilder vs ix).index
        (ValuesRep.adapted idx s)).flatMap
          (fun p => ["y1_" ++ p.1, "y2_" ++ p.1]))).enum.get? i with
    | none =>
      rw [henum] at hleg
      simp at hleg
    | some q =>
      rw [henum] at hleg hr2
      simp only [Option.map_some', Option.some.injEq] at hleg hr2
      have hsnd := congrArg Prod.snd hleg
      simp only at hsnd
      rw [← hsnd, hr2]

section PipelineWitnesses

attribute [local semireducible] Rat.mul Rat.add Rat.sub Rat.inv Rat.ofScientific

/-- The prepared builder of the pipeline witnesses. -/
def bpEx : BuilderState :=
  { index := .seq [0, 1]
    _values := .adapted [0, 1] [("a", [(0, 1), (1, 2)])]
    _values_index := [0, 1]
    _legends := []
    _data := []
    _groups := []
    _attr := []
    _source := none
    x_range := none
    y_range := none }

/-- The Line builder state right after `get_source` in the witness run. -/
def lineSourced : BuilderState := { lineFirstRun with _legends := [] }

/-- The Step builder state right after `get_source` in the witness run. -/
def stepSourced : BuilderState := { stepFirstRun with _legends := [] }

/-- Witness for the C7 theorem: one series gives one Line renderer and two
Step renderers, and position 0 (resp. 0 and 1) carries that series' line
(resp. correctly paired segment) glyphs. -/
theorem renderer_counts_witness :
    (LineBuilder.draw lineSourced).2.length = 1 ∧
    (StepBuilder.draw stepSourced).2.length = 2 ∧
    (LineBuilder.draw lineSourced).2.get? 0 = some lineR ∧
    (StepBuilder.draw stepSourced).2.get? 0 = some stepR1 ∧
    (StepBuilder.draw stepSourced).2.get? 1 = some stepR2 := by
  have h := renderer_counts smallValues (.seq [0, 1]) bpEx lineSourced stepSourced
    (by decide) (by decide) (by decide)
  have h3 := h.2.2 0 "a" (by decide)
  exact ⟨h.1.trans (by decide), h.2.1.trans (by decide), by decide, by decide, by decide⟩

/-- Witness for the C8 theorem: on the concrete run the legend names equal
the groups for both builders, and the Step legend entry holds exactly the
second emitted renderer. -/
theorem legend_order_matches_groups_witness :
    (LineBuilder.draw lineSourced).1._legends.map Prod.fst
      = (LineBuilder.draw lineSourced).1._groups ∧
    (StepBuilder.draw stepSourced).1._legends.map Prod.fst
      = (StepBuilder.draw stepSourced).1._groups ∧
    ((StepBuilder.draw stepSourced).1._legends.getD 0 ("", [])).2
      = [(StepBuilder.draw stepSourced).2.getD 1 stepR1] := by
  have h := legend_order_matches_groups smallValues (.seq [0, 1]) bpEx lineSourced stepSourced
    (by decide) (by decide) (by decide)
  have h3 := h.2.2 0 ((StepBuilder.draw stepSourced).1._legends.getD 0 ("", [])).1
    ((StepBuilder.draw stepSourced).1._legends.getD 0 ("", [])).2
    ((StepBuilder.draw stepSourced).2.getD 0 stepR1)
    ((StepBuilder.draw stepSourced).2.getD 1 stepR1)
    (by decide) (by decide) (by decide)
  exact ⟨h.1, h.2.1, h3⟩

end PipelineWitnesses
